import Mathlib

/-!
# Verification of the Tattoo-Stencil image-processing engine

Shallow embedding of the pixel engine of `components/image-processor.ts`
(`ImageProcessor`): the solid-stencil, black & white and line-sketch
transforms, the Sobel edge-detection pass, the dilation (line-thickness)
pass and the mode dispatcher, together with proofs of the specified
properties.

Modelling conventions:
* A raster is a mapping from pixel index (row-major, `p = y*width + x`) to
  four channel bytes, exactly the data model of the spec.  Channel bytes are
  `ℕ`; indices outside `width*height` hold the zero pixel (a JS buffer has no
  such entries).
* JS `number` arithmetic on luminance/contrast values is modelled by exact
  rational arithmetic (`ℚ`).  A store into a `Uint8ClampedArray` is modelled
  by `toUint8Clamp`: clamp to `[0,255]`, round to nearest, ties to even
  (ECMAScript `ToUint8Clamp`).
* `Math.sqrt` applied to a sum of two integer squares, then stored into a
  `Uint8ClampedArray`, is modelled by `roundSqrt`: the square root of an
  integer is never half an odd integer, so rounding to the nearest natural
  is exact and tie-free.
-/

-- Batteries marks the arithmetic on `Rat` `@[irreducible]`, which blocks
-- `decide` on concrete pixel computations; restore semireducibility locally.
set_option allowUnsafeReducibility true
attribute [local semireducible] Rat.add Rat.mul Rat.sub Rat.inv Rat.div Rat.ofScientific

/-- One RGBA pixel: four channel bytes. -/
structure Pix where
  r : ℕ
  g : ℕ
  b : ℕ
  a : ℕ
deriving DecidableEq

/-- The all-zero (transparent black) pixel: content of a freshly allocated
`Uint8ClampedArray` entry and of a freshly cleared canvas. -/
def Pix.zero : Pix := ⟨0, 0, 0, 0⟩

/-- An RGBA raster: dimensions plus the pixel-index → channel-bytes mapping. -/
structure Raster where
  width : ℕ
  height : ℕ
  data : ℕ → Pix

/-- Number of pixels of a raster. -/
def Raster.size (r : Raster) : ℕ := r.width * r.height

/-- The `StencilSettings` record of `image-processor.ts`.  `threshold` and
`contrast` are JS numbers (modelled as `ℚ`); `mode` is the runtime string. -/
structure StencilSettings where
  threshold : ℚ
  contrast : ℚ
  lineThickness : ℕ
  invert : Bool
  mode : String

/-- The `ProcessingResult` record: up to three optional output rasters. -/
structure ProcessingResult where
  solidStencil : Option Raster
  blackWhite : Option Raster
  lineSketch : Option Raster

/-- Round half to even (`roundTiesToEven`), the rounding used by the
ECMAScript `ToUint8Clamp` conversion performed by every store into a
`Uint8ClampedArray`. -/
def rhe (x : ℚ) : ℤ :=
  if Int.fract x < 1/2 then ⌊x⌋
  else if (1:ℚ)/2 < Int.fract x then ⌊x⌋ + 1
  else if ⌊x⌋ % 2 = 0 then ⌊x⌋ else ⌊x⌋ + 1

/-- ECMAScript `ToUint8Clamp`: clamp to `[0,255]`, then round to the nearest
integer, ties to even.  This is what storing a JS number into a
`Uint8ClampedArray` slot does. -/
def toUint8Clamp (x : ℚ) : ℕ :=
  if x ≤ 0 then 0
  else if 255 ≤ x then 255
  else (rhe x).toNat

/-- BT.601 luminance `data[i]*0.299 + data[i+1]*0.587 + data[i+2]*0.114`
(lines 217, 252, 325 of the source). -/
def luminance (p : Pix) : ℚ :=
  p.r * (299/1000) + p.g * (587/1000) + p.b * (114/1000)

/-- Contrast remapping `((gray / 255 - 0.5) * contrast + 0.5) * 255`
(lines 220, 328 of the source). -/
def contrastAdjust (gray c : ℚ) : ℚ :=
  ((gray / 255 - 1/2) * c + 1/2) * 255

/-- `ImageProcessor.applyStencilEffect` (lines 322–342): grayscale, contrast,
strict threshold to `255`/`0`, optional inversion; written identically to
R, G and B, alpha untouched.  The comparison uses the *unclamped* contrasted
value, exactly as the source does. -/
def applyStencilEffect (r : Raster) (s : StencilSettings) : Raster :=
  ⟨r.width, r.height, fun p =>
    if p < r.width * r.height then
      let gray := luminance (r.data p)
      let contrasted := contrastAdjust gray s.contrast
      let stencilValue : ℕ := if contrasted > s.threshold then 255 else 0
      let finalValue : ℕ := if s.invert then 255 - stencilValue else stencilValue
      ⟨finalValue, finalValue, finalValue, (r.data p).a⟩
    else r.data p⟩

/-- `ImageProcessor.createBlackWhiteDesign` (lines 206–237): grayscale,
contrast, clamp to `[0,255]` (`Math.max(0, Math.min(255, contrasted))`),
optional inversion `255 - finalGray`, stored into R, G and B through the
clamped-array store; alpha untouched.  No thresholding, no dilation. -/
def createBlackWhiteDesign (r : Raster) (s : StencilSettings) : Raster :=
  ⟨r.width, r.height, fun p =>
    if p < r.width * r.height then
      let gray := luminance (r.data p)
      let contrasted := contrastAdjust gray s.contrast
      let finalGray := max 0 (min 255 contrasted)
      let finalValue := if s.invert then 255 - finalGray else finalGray
      let v := toUint8Clamp finalValue
      ⟨v, v, v, (r.data p).a⟩
    else r.data p⟩

/-- Blacken the colour channels of a pixel, keeping its alpha: the effect of
one dilation write. -/
def Pix.blacken (p : Pix) : Pix := ⟨0, 0, 0, p.a⟩

/-- The grayscale pre-pass of `createLineSketch` (lines 250–255): every pixel
of the fresh `grayData` buffer gets the BT.601 luminance (quantised by the
clamped-array store) in R, G and B and the original alpha. -/
def toGrayscale (r : Raster) : Raster :=
  ⟨r.width, r.height, fun p =>
    if p < r.width * r.height then
      let gray := toUint8Clamp (luminance (r.data p))
      ⟨gray, gray, gray, (r.data p).a⟩
    else Pix.zero⟩

/-- The `sobelX` kernel of line 288. -/
def sobelX : List (List ℤ) := [[-1, 0, 1], [-2, 0, 2], [-1, 0, 1]]

/-- The `sobelY` kernel of line 289. -/
def sobelY : List (List ℤ) := [[-1, -2, -1], [0, 0, 0], [1, 2, 1]]

/-- The inner kernel loop of `applySobelEdgeDetection` (lines 297–305):
`Σ_{ky,kx ∈ 0..2} data[((y+ky-1)*width + (x+kx-1))*4] * k[ky][kx]`, reading
the R channel (the grayscale value).  Meaningful for interior pixels
(`1 ≤ x`, `1 ≤ y`), where the natural subtraction is exact. -/
def sobelAt (d : ℕ → Pix) (w x y : ℕ) (k : List (List ℤ)) : ℤ :=
  (List.range 3).foldl (fun acc ky =>
    (List.range 3).foldl (fun acc kx =>
      acc + ((d ((y - 1 + ky) * w + (x - 1 + kx))).r : ℤ) * ((k.getD ky []).getD kx 0))
      acc) 0

/-- Rounding of `Math.sqrt s` to the nearest natural for a natural `s`.
`√s` is never exactly half an odd integer, so the rounding is tie-free, and
for `s ≤ 2·1020²` (the Sobel range) the correctly rounded IEEE-double
`Math.sqrt` is far closer to `√s` than any rounding boundary; the
`Uint8ClampedArray` store of `Math.min(255, Math.sqrt s)` therefore equals
`min 255 (roundSqrt s)`. -/
def roundSqrt (s : ℕ) : ℕ :=
  let r := (List.range (s + 1)).foldl (fun acc v => if v * v ≤ s then v else acc) 0
  if s ≤ r * r + r then r else r + 1

/-- `ImageProcessor.applySobelEdgeDetection` (lines 284–320).  The result
buffer is freshly allocated (all-zero); only interior pixels (`1 ≤ x < w-1`,
`1 ≤ y < h-1`) are written, with the clamped gradient magnitude in R, G, B
and the input buffer's alpha.  Border pixels keep the zero pixel —
including a zero alpha byte. -/
def applySobelEdgeDetection (d : ℕ → Pix) (w h : ℕ) : ℕ → Pix :=
  fun p =>
    let y := p / w
    let x := p % w
    if 1 ≤ y ∧ y + 1 < h ∧ 1 ≤ x ∧ x + 1 < w then
      let gx := sobelAt d w x y sobelX
      let gy := sobelAt d w x y sobelY
      let m := min 255 (roundSqrt (gx * gx + gy * gy).toNat)
      ⟨m, m, m, (d p).a⟩
    else Pix.zero

/-- The clamped, rounded Sobel gradient-magnitude byte stored at interior
pixel `(x, y)` (lines 307–314). -/
def sobelByte (d : ℕ → Pix) (w x y : ℕ) : ℕ :=
  min 255 (roundSqrt (sobelAt d w x y sobelX * sobelAt d w x y sobelX
    + sobelAt d w x y sobelY * sobelAt d w x y sobelY).toNat)

/-- The thresholding loop of `createLineSketch` (lines 261–271): black (`0`)
where the stored edge strength strictly exceeds `threshold`, else white
(`255`); then optional inversion.  Writes R, G and B of the edge buffer in
place; alpha untouched. -/
def sketchThreshold (edge : ℕ → Pix) (w h : ℕ) (s : StencilSettings) : ℕ → Pix :=
  fun p =>
    if p < w * h then
      let edgeStrength := (edge p).r
      let lineValue : ℕ := if (edgeStrength : ℚ) > s.threshold then 0 else 255
      let finalValue : ℕ := if s.invert then 255 - lineValue else lineValue
      ⟨finalValue, finalValue, finalValue, (edge p).a⟩
    else edge p

/-- Lines 240–274 of `createLineSketch`: grayscale conversion, Sobel pass and
thresholding, before the optional line-thickness pass. -/
def sketchStage (r : Raster) (s : StencilSettings) : Raster :=
  let grayData := toGrayscale r
  let edgeData := applySobelEdgeDetection grayData.data r.width r.height
  ⟨r.width, r.height, sketchThreshold edgeData r.width r.height s⟩

/-- One write of the dilation loop (lines 364–372): if `(nx, ny)` is inside
the image, blacken R, G and B of that pixel, leaving alpha alone. -/
def paintPixel (w h : ℕ) (nx ny : ℤ) (d : ℕ → Pix) : ℕ → Pix :=
  if 0 ≤ nx ∧ nx < w ∧ 0 ≤ ny ∧ ny < h then
    fun q => if q = ny.toNat * w + nx.toNat
      then ⟨0, 0, 0, (d (ny.toNat * w + nx.toNat)).a⟩ else d q
  else d

/-- The neighbourhood loop of `applyLineThickness` (lines 362–374): for
`dy, dx` ranging over `[-(t-1), t-1]`, blacken the clipped neighbour
`(x+dx, y+dy)`. -/
def paintNbhd (w h t x y : ℕ) (d : ℕ → Pix) : ℕ → Pix :=
  (List.range (2 * t - 1)).foldl (fun d (dy : ℕ) =>
    (List.range (2 * t - 1)).foldl (fun d (dx : ℕ) =>
      paintPixel w h ((x : ℤ) + (dx : ℤ) - ((t : ℤ) - 1)) ((y : ℤ) + (dy : ℤ) - ((t : ℤ) - 1)) d)
      d) d

/-- `ImageProcessor.applyLineThickness` (lines 344–380): returns the raster
unchanged for `thickness ≤ 1`; otherwise scans every pixel, and wherever the
*original snapshot* (`originalData`, line 353) has a black R channel, paints
the whole `[-(t-1), t-1]` square neighbourhood black in the live buffer. -/
def applyLineThickness (t : ℕ) (r : Raster) : Raster :=
  if t ≤ 1 then r
  else
    let orig := r.data
    ⟨r.width, r.height,
      (List.range r.height).foldl (fun d y =>
        (List.range r.width).foldl (fun d x =>
          if (orig (y * r.width + x)).r = 0 then paintNbhd r.width r.height t x y d else d)
          d) r.data⟩

/-- `ImageProcessor.createLineSketch` (lines 239–282): sketch stage, then the
line-thickness pass when `lineThickness > 1`. -/
def createLineSketch (r : Raster) (s : StencilSettings) : Raster :=
  let sketch := sketchStage r s
  if s.lineThickness > 1 then applyLineThickness s.lineThickness sketch else sketch

/-- `ImageProcessor.createSolidStencil` (lines 184–204): stencil effect, then
the line-thickness pass when `lineThickness > 1`. -/
def createSolidStencil (r : Raster) (s : StencilSettings) : Raster :=
  let st := applyStencilEffect r s
  if s.lineThickness > 1 then applyLineThickness s.lineThickness st else st

/-- The canvas contents right after `this.canvas.width = img.width;
this.canvas.height = img.height` (lines 160–161): resizing a canvas clears
it to transparent black. -/
def blankRaster (w h : ℕ) : Raster := ⟨w, h, fun _ => Pix.zero⟩

/-- Modelled from the spec: per-pixel source-over compositing, the effect of
the "draw original image onto the shared drawing surface" step
(`this.ctx.drawImage(img, 0, 0)`, §9 of the spec) — a platform API, not
repository code.  A fully opaque source pixel replaces the canvas pixel
outright, which is the only case the theorems below rely on. -/
def sourceOver (s d : Pix) : Pix :=
  let sa : ℚ := s.a / 255
  let da : ℚ := d.a / 255
  let oa : ℚ := sa + da * (1 - sa)
  let chan : ℕ → ℕ → ℕ := fun cs cd =>
    toUint8Clamp (if oa = 0 then 0 else (cs * sa + cd * da * (1 - sa)) / oa)
  ⟨chan s.r d.r, chan s.g d.g, chan s.b d.b, toUint8Clamp (oa * 255)⟩

/-- Modelled from the spec: drawing the decoded image over the shared canvas
surface, pixel by pixel (`sourceOver`); out-of-range indices hold the zero
pixel, as in every fresh buffer of this embedding. -/
def drawImage (src dst : Raster) : Raster :=
  ⟨dst.width, dst.height, fun p =>
    if p < dst.width * dst.height then sourceOver (src.data p) (dst.data p)
    else Pix.zero⟩

/-- `ImageProcessor.processImage` (lines 154–182): resize (and thereby clear)
the shared canvas, then dispatch on `settings.mode`.  The three recognised
modes fill the corresponding result fields; any other mode string falls
through the `if`/`else if` chain and the empty result is resolved — there is
no error path for an unrecognised mode.  (The only rejection paths of the
promise are image-decoding failures, which are outside the engine per the
spec.) -/
def processImage (img : Raster) (s : StencilSettings) : ProcessingResult :=
  let canvas0 := blankRaster img.width img.height
  if s.mode = "solid-stencil" then
    ⟨some (createSolidStencil (drawImage img canvas0) s), none, none⟩
  else if s.mode = "black-white" then
    let bw := createBlackWhiteDesign (drawImage img canvas0) s
    let ls := createLineSketch (drawImage img bw) s
    ⟨none, some bw, some ls⟩
  else if s.mode = "line-sketch" then
    ⟨none, none, some (createLineSketch (drawImage img canvas0) s)⟩
  else
    ⟨none, none, none⟩

/-! ## Predicates used to characterise the dilation pass -/

/-- Pixel index `q` is hit by the neighbourhood loop of the dilation pass
rooted at source pixel `(x, y)`: some in-bounds offset `(dx, dy)` with
`dx, dy ∈ [-(t-1), t-1]` lands on `q`. -/
@[reducible] def paintCovers (w h t x y q : ℕ) : Prop :=
  ∃ dy, dy < 2 * t - 1 ∧ ∃ dx, dx < 2 * t - 1 ∧
    (0 ≤ (x : ℤ) + dx - ((t : ℤ) - 1) ∧ (x : ℤ) + dx - ((t : ℤ) - 1) < w ∧
     0 ≤ (y : ℤ) + dy - ((t : ℤ) - 1) ∧ (y : ℤ) + dy - ((t : ℤ) - 1) < h ∧
     q = ((y : ℤ) + dy - ((t : ℤ) - 1)).toNat * w + ((x : ℤ) + dx - ((t : ℤ) - 1)).toNat)

/-- Pixel index `q` is blackened by the dilation pass over snapshot `orig`:
some in-bounds source pixel with black R channel covers it. -/
@[reducible] def dilationCovers (orig : ℕ → Pix) (w h t q : ℕ) : Prop :=
  ∃ y, y < h ∧ ∃ x, x < w ∧ ((orig (y * w + x)).r = 0 ∧ paintCovers w h t x y q)

/-- The claim's neighbourhood condition at pixel `(u, v)`: some pixel of the
snapshot at offsets `dx, dy ∈ [-(t-1), t-1]` (clipped to bounds) is black. -/
@[reducible] def hasBlackNeighbor (r : Raster) (t u v : ℕ) : Prop :=
  ∃ y, y < r.height ∧ ∃ x, x < r.width ∧
    ((r.data (y * r.width + x)).r = 0 ∧
     (x : ℤ) ≤ (u : ℤ) + ((t : ℤ) - 1) ∧ (u : ℤ) ≤ (x : ℤ) + ((t : ℤ) - 1) ∧
     (y : ℤ) ≤ (v : ℤ) + ((t : ℤ) - 1) ∧ (v : ℤ) ≤ (y : ℤ) + ((t : ℤ) - 1))

/-! ## Spec-side formulas (stated from the specification's words, for
comparison with the translated code) -/

/-- The solid-stencil pixel value exactly as claim C1 words it: the
contrast-adjusted luminance *clamped to [0, 255]* is compared with the
threshold. -/
def claimSolidValueClamped (p : Pix) (s : StencilSettings) : ℕ :=
  let C := max 0 (min 255 (contrastAdjust (luminance p) s.contrast))
  let v : ℕ := if C > s.threshold then 255 else 0
  if s.invert then 255 - v else v

/-- The solid-stencil pixel value with the comparison the code performs: the
*unclamped* contrast-adjusted luminance is compared with the threshold. -/
def solidValue (p : Pix) (s : StencilSettings) : ℕ :=
  let v : ℕ := if contrastAdjust (luminance p) s.contrast > s.threshold then 255 else 0
  if s.invert then 255 - v else v

/-- The per-pixel value of the line-sketch thresholding loop (lines 262–266):
black where the stored edge strength exceeds the threshold, else white, then
the optional inversion. -/
def sketchValue (es : ℕ) (s : StencilSettings) : ℕ :=
  let lineValue : ℕ := if (es : ℚ) > s.threshold then 0 else 255
  if s.invert then 255 - lineValue else lineValue

/-- The black & white pixel value exactly as claim C7 words it: the real
(unquantised) contrast-adjusted luminance `C`, or `255 - C` under `invert`. -/
def claimBWValueExact (p : Pix) (s : StencilSettings) : ℚ :=
  let C := max 0 (min 255 (contrastAdjust (luminance p) s.contrast))
  if s.invert then 255 - C else C

/-- The black & white channel byte the code stores: `claimBWValueExact`
pushed through the `Uint8ClampedArray` store. -/
def bwByte (p : Pix) (s : StencilSettings) : ℕ :=
  toUint8Clamp (claimBWValueExact p s)

/-- The exact Sobel magnitude condition as claim C2 words it, expressed
without square roots: for `M = min 255 (√sq)` and a threshold `t`,
`M > t ↔ t < 0 ∨ (t < 255 ∧ t² < sq)` (the magnitude is nonnegative, and
for `0 ≤ t` the strict inequality `√sq > t` is equivalent to `sq > t²`). -/
def claimMagnitudeExceeds (sq : ℕ) (t : ℚ) : Prop :=
  t < 0 ∨ (t < 255 ∧ t * t < (sq : ℚ))

/-- The Sobel x-gradient at interior pixel `(x, y)` written out from the
spec's kernel `Gx = [[-1,0,1],[-2,0,2],[-1,0,1]]` over a grayscale byte
map `g`. -/
def gxFormula (g : ℕ → ℕ) (w x y : ℕ) : ℤ :=
  -(g ((y - 1) * w + (x - 1)) : ℤ) + (g ((y - 1) * w + (x + 1)) : ℤ)
    - 2 * (g (y * w + (x - 1)) : ℤ) + 2 * (g (y * w + (x + 1)) : ℤ)
    - (g ((y + 1) * w + (x - 1)) : ℤ) + (g ((y + 1) * w + (x + 1)) : ℤ)

/-- The Sobel y-gradient at interior pixel `(x, y)` written out from the
spec's kernel `Gy = [[-1,-2,-1],[0,0,0],[1,2,1]]` over a grayscale byte
map `g`. -/
def gyFormula (g : ℕ → ℕ) (w x y : ℕ) : ℤ :=
  -(g ((y - 1) * w + (x - 1)) : ℤ) - 2 * (g ((y - 1) * w + x) : ℤ)
    - (g ((y - 1) * w + (x + 1)) : ℤ)
    + (g ((y + 1) * w + (x - 1)) : ℤ) + 2 * (g ((y + 1) * w + x) : ℤ)
    + (g ((y + 1) * w + (x + 1)) : ℤ)

/-- The stored edge-strength byte at interior pixel `(x, y)`: clamped,
rounded magnitude of the Sobel gradient. -/
def specEdgeByte (g : ℕ → ℕ) (w x y : ℕ) : ℕ :=
  min 255 (roundSqrt (gxFormula g w x y * gxFormula g w x y
    + gyFormula g w x y * gyFormula g w x y).toNat)

/-- The quantised grayscale byte map of a raster (spec §4.4 step 1 plus the
8-bit store). -/
def grayMap (r : Raster) : ℕ → ℕ :=
  fun q => toUint8Clamp (luminance (r.data q))

/-- A raster whose channel bytes are genuine bytes (`≤ 255`) on every
in-range pixel. -/
def ValidRaster (r : Raster) : Prop :=
  ∀ p, p < r.width * r.height →
    (r.data p).r ≤ 255 ∧ (r.data p).g ≤ 255 ∧ (r.data p).b ≤ 255 ∧ (r.data p).a ≤ 255

/-! ## Concrete fixtures for counterexamples and witnesses -/

/-- 1×1 opaque dark pixel. -/
def fxDark1 : Raster := ⟨1, 1, fun _ => ⟨10, 20, 30, 255⟩⟩

/-- 1×1 opaque pure-white pixel. -/
def fxWhite1 : Raster := ⟨1, 1, fun _ => ⟨255, 255, 255, 255⟩⟩

/-- 1×1 opaque pixel `(1, 0, 0)`: luminance `0.299`. -/
def fxRed1 : Raster := ⟨1, 1, fun _ => ⟨1, 0, 0, 255⟩⟩

/-- 1×1 opaque pixel `(0, 0, 250)`: luminance exactly `28.5`, a rounding
tie. -/
def fxTie1 : Raster := ⟨1, 1, fun _ => ⟨0, 0, 250, 255⟩⟩

/-- 3×3 opaque raster, black everywhere except pixel `(2, 2)` which is the
almost-black `(1, 1, 1)`: the Sobel gradient at the centre is `(1, 1)`,
magnitude `√2`. -/
def fxImg3 : Raster := ⟨3, 3, fun p => if p = 8 then ⟨1, 1, 1, 255⟩ else ⟨0, 0, 0, 255⟩⟩

/-- 20×20 opaque raster, white except for a single black pixel at
`(x, y)`. -/
def fxSingle20 (x y : ℕ) : Raster :=
  ⟨20, 20, fun p => if p = y * 20 + x then ⟨0, 0, 0, 255⟩ else ⟨255, 255, 255, 255⟩⟩

-- sanity checks on the byte-store model
example : toUint8Clamp (299/1000) = 0 := by decide
example : toUint8Clamp (57/2) = 28 := by decide
example : toUint8Clamp (453/2) = 226 := by decide
example : toUint8Clamp 255 = 255 := by decide
example : toUint8Clamp 300 = 255 := by decide
example : toUint8Clamp (-3) = 0 := by decide
example : roundSqrt 2 = 1 := by decide
example : roundSqrt 100 = 10 := by decide
example : roundSqrt 110 = 10 := by decide
example : roundSqrt 111 = 11 := by decide

/-! ## Helper lemmas: characterising the dilation pass -/


lemma Pix.blacken_blacken (p : Pix) : p.blacken.blacken = p.blacken := rfl

lemma Pix.blacken_a (p : Pix) : p.blacken.a = p.a := rfl

/-- Generic characterisation of a left fold of blackening writes over
`List.range n`: a slot is blackened exactly when some iteration hits it,
and is otherwise untouched. -/
lemma foldl_blacken_char (f : ℕ → (ℕ → Pix) → (ℕ → Pix)) (P : ℕ → ℕ → Prop)
    (hf1 : ∀ k d q, P k q → f k d q = (d q).blacken)
    (hf2 : ∀ k d q, ¬P k q → f k d q = d q) (n : ℕ) :
    ∀ (d : ℕ → Pix) (q : ℕ),
      ((∃ k, k < n ∧ P k q) → ((List.range n).foldl (fun d k => f k d) d) q = (d q).blacken) ∧
      (¬(∃ k, k < n ∧ P k q) → ((List.range n).foldl (fun d k => f k d) d) q = d q) := by
  induction n with
  | zero =>
    intro d q
    refine ⟨fun hex => absurd hex ?_, fun _ => by simp⟩
    rintro ⟨k, hk, -⟩
    omega
  | succ n ih =>
    intro d q
    rw [List.range_succ, List.foldl_append, List.foldl_cons, List.foldl_nil]
    constructor
    · rintro ⟨k, hk, hP⟩
      by_cases h2 : P n q
      · rw [hf1 n _ q h2]
        by_cases h1 : ∃ k, k < n ∧ P k q
        · rw [(ih d q).1 h1, Pix.blacken_blacken]
        · rw [(ih d q).2 h1]
      · have hkn : k < n := by
          rcases Nat.lt_succ_iff_lt_or_eq.mp hk with h | h
          · exact h
          · exact absurd (h ▸ hP) h2
        rw [hf2 n _ q h2, (ih d q).1 ⟨k, hkn, hP⟩]
    · intro hno
      have h2 : ¬P n q := fun hP => hno ⟨n, Nat.lt_succ_self n, hP⟩
      have h1 : ¬∃ k, k < n ∧ P k q := fun ⟨k, hk, hP⟩ =>
        hno ⟨k, Nat.lt_succ_of_lt hk, hP⟩
      rw [hf2 n _ q h2, (ih d q).2 h1]

/-- A dilation write blackens the target slot. -/
lemma paintPixel_hit (w h : ℕ) (nx ny : ℤ) (d : ℕ → Pix) (q : ℕ)
    (hb : 0 ≤ nx ∧ nx < w ∧ 0 ≤ ny ∧ ny < h ∧ q = ny.toNat * w + nx.toNat) :
    paintPixel w h nx ny d q = (d q).blacken := by
  obtain ⟨h1, h2, h3, h4, h5⟩ := hb
  subst h5
  unfold paintPixel
  rw [if_pos ⟨h1, h2, h3, h4⟩, if_pos rfl]
  rfl

/-- A dilation write leaves every other slot alone. -/
lemma paintPixel_miss (w h : ℕ) (nx ny : ℤ) (d : ℕ → Pix) (q : ℕ)
    (hb : ¬(0 ≤ nx ∧ nx < w ∧ 0 ≤ ny ∧ ny < h ∧ q = ny.toNat * w + nx.toNat)) :
    paintPixel w h nx ny d q = d q := by
  unfold paintPixel
  by_cases hbounds : 0 ≤ nx ∧ nx < (w : ℤ) ∧ 0 ≤ ny ∧ ny < (h : ℤ)
  · rw [if_pos hbounds,
      if_neg fun hq => hb ⟨hbounds.1, hbounds.2.1, hbounds.2.2.1, hbounds.2.2.2, hq⟩]
  · rw [if_neg hbounds]

/-- The neighbourhood double loop blackens exactly the covered slots. -/
lemma paintNbhd_char (w h t x y : ℕ) (d : ℕ → Pix) (q : ℕ) :
    (paintCovers w h t x y q → paintNbhd w h t x y d q = (d q).blacken) ∧
    (¬paintCovers w h t x y q → paintNbhd w h t x y d q = d q) := by
  have hinner : ∀ (dy : ℕ) (d : ℕ → Pix) (q : ℕ),
      ((∃ dx, dx < 2 * t - 1 ∧
          (0 ≤ (x : ℤ) + (dx : ℤ) - ((t : ℤ) - 1) ∧ (x : ℤ) + (dx : ℤ) - ((t : ℤ) - 1) < w ∧
           0 ≤ (y : ℤ) + (dy : ℤ) - ((t : ℤ) - 1) ∧ (y : ℤ) + (dy : ℤ) - ((t : ℤ) - 1) < h ∧
           q = ((y : ℤ) + (dy : ℤ) - ((t : ℤ) - 1)).toNat * w
             + ((x : ℤ) + (dx : ℤ) - ((t : ℤ) - 1)).toNat)) →
        ((List.range (2 * t - 1)).foldl (fun d (dx : ℕ) =>
          paintPixel w h ((x : ℤ) + (dx : ℤ) - ((t : ℤ) - 1))
            ((y : ℤ) + (dy : ℤ) - ((t : ℤ) - 1)) d) d) q = (d q).blacken) ∧
      (¬(∃ dx, dx < 2 * t - 1 ∧
          (0 ≤ (x : ℤ) + (dx : ℤ) - ((t : ℤ) - 1) ∧ (x : ℤ) + (dx : ℤ) - ((t : ℤ) - 1) < w ∧
           0 ≤ (y : ℤ) + (dy : ℤ) - ((t : ℤ) - 1) ∧ (y : ℤ) + (dy : ℤ) - ((t : ℤ) - 1) < h ∧
           q = ((y : ℤ) + (dy : ℤ) - ((t : ℤ) - 1)).toNat * w
             + ((x : ℤ) + (dx : ℤ) - ((t : ℤ) - 1)).toNat)) →
        ((List.range (2 * t - 1)).foldl (fun d (dx : ℕ) =>
          paintPixel w h ((x : ℤ) + (dx : ℤ) - ((t : ℤ) - 1))
            ((y : ℤ) + (dy : ℤ) - ((t : ℤ) - 1)) d) d) q = d q) := by
    intro dy
    exact foldl_blacken_char _ _
      (fun dx d q hP => paintPixel_hit w h ((x : ℤ) + (dx : ℤ) - ((t : ℤ) - 1))
        ((y : ℤ) + (dy : ℤ) - ((t : ℤ) - 1)) d q hP)
      (fun dx d q hP => paintPixel_miss w h ((x : ℤ) + (dx : ℤ) - ((t : ℤ) - 1))
        ((y : ℤ) + (dy : ℤ) - ((t : ℤ) - 1)) d q hP) (2 * t - 1)
  unfold paintNbhd
  exact foldl_blacken_char _ _
    (fun dy d q hP => (hinner dy d q).1 hP)
    (fun dy d q hP => (hinner dy d q).2 hP) (2 * t - 1) d q

/-- The full dilation scan (for `2 ≤ t`) blackens exactly the pixels covered
by some black source pixel of the snapshot, and touches nothing else —
alpha channel included. -/
lemma applyLineThickness_char (t : ℕ) (r : Raster) (ht : 2 ≤ t) (q : ℕ) :
    (dilationCovers r.data r.width r.height t q →
      (applyLineThickness t r).data q = (r.data q).blacken) ∧
    (¬dilationCovers r.data r.width r.height t q →
      (applyLineThickness t r).data q = r.data q) := by
  have hinner : ∀ (y : ℕ) (d : ℕ → Pix) (q : ℕ),
      ((∃ x, x < r.width ∧ ((r.data (y * r.width + x)).r = 0 ∧
          paintCovers r.width r.height t x y q)) →
        ((List.range r.width).foldl (fun d (x : ℕ) =>
          if (r.data (y * r.width + x)).r = 0
          then paintNbhd r.width r.height t x y d else d) d) q = (d q).blacken) ∧
      (¬(∃ x, x < r.width ∧ ((r.data (y * r.width + x)).r = 0 ∧
          paintCovers r.width r.height t x y q)) →
        ((List.range r.width).foldl (fun d (x : ℕ) =>
          if (r.data (y * r.width + x)).r = 0
          then paintNbhd r.width r.height t x y d else d) d) q = d q) := by
    intro y
    refine foldl_blacken_char _ _ ?_ ?_ r.width
    · rintro x d q ⟨hg, hc⟩
      rw [if_pos hg]
      exact (paintNbhd_char r.width r.height t x y d q).1 hc
    · intro x d q hP
      by_cases hg : (r.data (y * r.width + x)).r = 0
      · rw [if_pos hg]
        exact (paintNbhd_char r.width r.height t x y d q).2 fun hc => hP ⟨hg, hc⟩
      · rw [if_neg hg]
  have hmain := foldl_blacken_char _ _
    (fun y d q hP => (hinner y d q).1 hP)
    (fun y d q hP => (hinner y d q).2 hP) r.height r.data q
  unfold applyLineThickness
  rw [if_neg (by omega)]
  exact hmain

/-- Dilation never touches the alpha channel, for any thickness. -/
lemma applyLineThickness_a (t : ℕ) (r : Raster) (q : ℕ) :
    ((applyLineThickness t r).data q).a = (r.data q).a := by
  by_cases ht : t ≤ 1
  · unfold applyLineThickness
    rw [if_pos ht]
  · have := applyLineThickness_char t r (by omega) q
    by_cases hc : dilationCovers r.data r.width r.height t q
    · rw [this.1 hc, Pix.blacken_a]
    · rw [this.2 hc]

/-- Every pixel of a dilated raster is either the blackened or the original
pixel of the input. -/
lemma applyLineThickness_cases (t : ℕ) (r : Raster) (q : ℕ) :
    (applyLineThickness t r).data q = (r.data q).blacken ∨
    (applyLineThickness t r).data q = r.data q := by
  by_cases ht : t ≤ 1
  · unfold applyLineThickness
    rw [if_pos ht]
    exact Or.inr rfl
  · have := applyLineThickness_char t r (by omega) q
    by_cases hc : dilationCovers r.data r.width r.height t q
    · exact Or.inl (this.1 hc)
    · exact Or.inr (this.2 hc)

/-- Dilation leaves the dimensions unchanged. -/
lemma applyLineThickness_width (t : ℕ) (r : Raster) :
    (applyLineThickness t r).width = r.width := by
  unfold applyLineThickness
  by_cases ht : t ≤ 1 <;> simp [ht]

lemma applyLineThickness_height (t : ℕ) (r : Raster) :
    (applyLineThickness t r).height = r.height := by
  unfold applyLineThickness
  by_cases ht : t ≤ 1 <;> simp [ht]

/-- Row-major index decomposition is unique. -/
lemma rowcol_inj {w a b c d : ℕ} (hb : b < w) (hd : d < w)
    (h : a * w + b = c * w + d) : a = c ∧ b = d := by
  have hw : 0 < w := by omega
  have ha : a = (a * w + b) / w := by
    rw [Nat.mul_comm, Nat.mul_add_div hw, Nat.div_eq_of_lt hb, Nat.add_zero]
  have hc : c = (c * w + d) / w := by
    rw [Nat.mul_comm, Nat.mul_add_div hw, Nat.div_eq_of_lt hd, Nat.add_zero]
  have hac : a = c := by rw [ha, h, ← hc]
  subst hac
  exact ⟨rfl, by omega⟩

/-- The dilation-coverage predicate at an in-bounds pixel `(u, v)` is the
claim's black-neighbourhood condition. -/
lemma dilationCovers_iff_hasBlackNeighbor (r : Raster) (t u v : ℕ) (ht : 1 ≤ t)
    (hu : u < r.width) (hv : v < r.height) :
    dilationCovers r.data r.width r.height t (v * r.width + u) ↔
      hasBlackNeighbor r t u v := by
  constructor
  · rintro ⟨y, hy, x, hx, hblack, dy, hdy, dx, hdx, hnx0, hnxw, hny0, hnyh, hq⟩
    have hnxlt : ((x : ℤ) + (dx : ℤ) - ((t : ℤ) - 1)).toNat < r.width := by omega
    obtain ⟨hveq, hueq⟩ := rowcol_inj hu hnxlt hq
    exact ⟨y, hy, x, hx, hblack, by omega, by omega, by omega, by omega⟩
  · rintro ⟨y, hy, x, hx, hblack, h1, h2, h3, h4⟩
    refine ⟨y, hy, x, hx, hblack,
      ((v : ℤ) - (y : ℤ) + ((t : ℤ) - 1)).toNat, by omega,
      ((u : ℤ) - (x : ℤ) + ((t : ℤ) - 1)).toNat, by omega,
      by omega, by omega, by omega, by omega, ?_⟩
    have hnx : ((x : ℤ) + (((u : ℤ) - (x : ℤ) + ((t : ℤ) - 1)).toNat : ℤ)
        - ((t : ℤ) - 1)).toNat = u := by omega
    have hny : ((y : ℤ) + (((v : ℤ) - (y : ℤ) + ((t : ℤ) - 1)).toNat : ℤ)
        - ((t : ℤ) - 1)).toNat = v := by omega
    rw [hnx, hny]

/-- Part (i) of claim C3: output blackness is exactly the presence of a black
snapshot pixel in the `[-(t-1), t-1]` square, for every thickness `t ≥ 1`. -/
lemma dilation_black_iff (r : Raster) (t : ℕ) (ht : 1 ≤ t) (u v : ℕ)
    (hu : u < r.width) (hv : v < r.height) :
    ((applyLineThickness t r).data (v * r.width + u)).r = 0 ↔
      hasBlackNeighbor r t u v := by
  by_cases ht1 : t ≤ 1
  · have h1 : t = 1 := by omega
    subst h1
    unfold applyLineThickness
    rw [if_pos (le_refl 1)]
    constructor
    · intro hb
      exact ⟨v, hv, u, hu, hb, by omega, by omega, by omega, by omega⟩
    · rintro ⟨y, hy, x, hx, hb, h1, h2, h3, h4⟩
      have hxy : x = u ∧ y = v := by omega
      rw [← hxy.1, ← hxy.2]
      exact hb
  · have hchar := applyLineThickness_char t r (by omega) (v * r.width + u)
    constructor
    · intro h0
      by_cases hc : dilationCovers r.data r.width r.height t (v * r.width + u)
      · exact (dilationCovers_iff_hasBlackNeighbor r t u v ht hu hv).mp hc
      · rw [hchar.2 hc] at h0
        exact ⟨v, hv, u, hu, h0, by omega, by omega, by omega, by omega⟩
    · intro hn
      rw [hchar.1 ((dilationCovers_iff_hasBlackNeighbor r t u v ht hu hv).mpr hn)]
      rfl

/-- Part (ii) of claim C3: thickness `1` is a bitwise no-op. -/
lemma applyLineThickness_one (r : Raster) : applyLineThickness 1 r = r := by
  unfold applyLineThickness
  rw [if_pos (le_refl 1)]

/-- Part (iii) of claim C3: dilating a single black pixel at `(x0, y0)` of an
otherwise white 20×20 raster with `t = 3` yields exactly the clipped 5×5
black square centred there, and changes no other pixel. -/
lemma dilation_single20 (x0 y0 : ℕ) (hx0 : x0 < 20) (hy0 : y0 < 20)
    (u v : ℕ) (hu : u < 20) (hv : v < 20) :
    (applyLineThickness 3 (fxSingle20 x0 y0)).data (v * 20 + u) =
      if (x0 : ℤ) ≤ (u : ℤ) + 2 ∧ (u : ℤ) ≤ (x0 : ℤ) + 2 ∧
         (y0 : ℤ) ≤ (v : ℤ) + 2 ∧ (v : ℤ) ≤ (y0 : ℤ) + 2
      then ⟨0, 0, 0, 255⟩ else ⟨255, 255, 255, 255⟩ := by
  have hchar := applyLineThickness_char 3 (fxSingle20 x0 y0) (by omega) (v * 20 + u)
  have hdata : ∀ q, (fxSingle20 x0 y0).data q =
      if q = y0 * 20 + x0 then ⟨0, 0, 0, 255⟩ else ⟨255, 255, 255, 255⟩ := fun q => rfl
  have hblack : ∀ y x, ((fxSingle20 x0 y0).data (y * 20 + x)).r = 0 ↔
      y * 20 + x = y0 * 20 + x0 := by
    intro y x
    rw [hdata]
    by_cases h : y * 20 + x = y0 * 20 + x0 <;> simp [h]
  have hcov : dilationCovers (fxSingle20 x0 y0).data 20 20 3 (v * 20 + u) ↔
      ((x0 : ℤ) ≤ (u : ℤ) + 2 ∧ (u : ℤ) ≤ (x0 : ℤ) + 2 ∧
       (y0 : ℤ) ≤ (v : ℤ) + 2 ∧ (v : ℤ) ≤ (y0 : ℤ) + 2) := by
    have hiff : dilationCovers (fxSingle20 x0 y0).data 20 20 3 (v * 20 + u) ↔
        hasBlackNeighbor (fxSingle20 x0 y0) 3 u v :=
      dilationCovers_iff_hasBlackNeighbor (fxSingle20 x0 y0) 3 u v (by omega) hu hv
    rw [hiff]
    constructor
    · rintro ⟨y, hy, x, hx, hb, h1, h2, h3, h4⟩
      obtain ⟨hyv, hxu⟩ := rowcol_inj hx hx0 ((hblack y x).mp hb)
      omega
    · intro hbox
      exact ⟨y0, hy0, x0, hx0, (hblack y0 x0).mpr rfl, by omega, by omega, by omega,
        by omega⟩
  by_cases hbox : (x0 : ℤ) ≤ (u : ℤ) + 2 ∧ (u : ℤ) ≤ (x0 : ℤ) + 2 ∧
      (y0 : ℤ) ≤ (v : ℤ) + 2 ∧ (v : ℤ) ≤ (y0 : ℤ) + 2
  · rw [if_pos hbox, hchar.1 (hcov.mpr hbox), hdata]
    by_cases hq : v * 20 + u = y0 * 20 + x0 <;> simp [hq, Pix.blacken]
  · rw [if_neg hbox, hchar.2 fun hc => hbox (hcov.mp hc), hdata, if_neg ?_]
    intro hq
    obtain ⟨hyv, hxu⟩ := rowcol_inj hu hx0 hq
    omega

/-! ## Claim C3: the dilation stage -/

/-- **C3** — Dilation stage: a pixel is black in the output iff some pixel at
offsets `dx, dy ∈ [-(t-1), t-1]` (clipped to image bounds) is black in the
original snapshot of the pre-dilation buffer, so already-dilated pixels never
cascade; with `t = 1` the stage is skipped and the output equals the input
bitwise; and `t = 3` applied to a single isolated black pixel at `(x0, y0)`
of an otherwise-white 20×20 image produces exactly the 5×5 black square
centred at `(x0, y0)`, clipped at image edges, with no other pixel
changed. -/
theorem c3_dilation_stage :
    (∀ (r : Raster) (t : ℕ), 1 ≤ t → ∀ u v : ℕ, u < r.width → v < r.height →
      (((applyLineThickness t r).data (v * r.width + u)).r = 0 ↔
        hasBlackNeighbor r t u v)) ∧
    (∀ r : Raster, applyLineThickness 1 r = r) ∧
    (∀ x0 y0 : ℕ, x0 < 20 → y0 < 20 → ∀ u v : ℕ, u < 20 → v < 20 →
      (applyLineThickness 3 (fxSingle20 x0 y0)).data (v * 20 + u) =
        if (x0 : ℤ) ≤ (u : ℤ) + 2 ∧ (u : ℤ) ≤ (x0 : ℤ) + 2 ∧
           (y0 : ℤ) ≤ (v : ℤ) + 2 ∧ (v : ℤ) ≤ (y0 : ℤ) + 2
        then ⟨0, 0, 0, 255⟩ else ⟨255, 255, 255, 255⟩) :=
  ⟨fun r t ht u v hu hv => dilation_black_iff r t ht u v hu hv,
   applyLineThickness_one,
   fun x0 y0 hx0 hy0 u v hu hv => dilation_single20 x0 y0 hx0 hy0 u v hu hv⟩

/-- Witness for C3 at concrete inputs: the 5×5 square around `(10, 10)`
contains `(12, 8)` and excludes `(13, 8)`. -/
theorem c3_dilation_stage_witness :
    (applyLineThickness 3 (fxSingle20 10 10)).data (8 * 20 + 12) = ⟨0, 0, 0, 255⟩ ∧
    (applyLineThickness 3 (fxSingle20 10 10)).data (8 * 20 + 13) = ⟨255, 255, 255, 255⟩ := by
  constructor
  · rw [c3_dilation_stage.2.2 10 10 (by decide) (by decide) 12 8 (by decide) (by decide),
      if_pos (by decide)]
  · rw [c3_dilation_stage.2.2 10 10 (by decide) (by decide) 13 8 (by decide) (by decide),
      if_neg (by decide)]

/-! ## Per-pixel unfolding lemmas for the transforms -/

lemma applyStencilEffect_data (r : Raster) (s : StencilSettings) (p : ℕ)
    (hp : p < r.width * r.height) :
    (applyStencilEffect r s).data p =
      ⟨solidValue (r.data p) s, solidValue (r.data p) s, solidValue (r.data p) s,
       (r.data p).a⟩ := by
  dsimp only [applyStencilEffect, solidValue]
  rw [if_pos hp]

lemma createBlackWhiteDesign_data (r : Raster) (s : StencilSettings) (p : ℕ)
    (hp : p < r.width * r.height) :
    (createBlackWhiteDesign r s).data p =
      ⟨bwByte (r.data p) s, bwByte (r.data p) s, bwByte (r.data p) s, (r.data p).a⟩ := by
  dsimp only [createBlackWhiteDesign, bwByte, claimBWValueExact]
  rw [if_pos hp]

lemma toGrayscale_data (r : Raster) (p : ℕ) (hp : p < r.width * r.height) :
    (toGrayscale r).data p =
      ⟨grayMap r p, grayMap r p, grayMap r p, (r.data p).a⟩ := by
  dsimp only [toGrayscale, grayMap]
  rw [if_pos hp]

lemma sketchStage_data (r : Raster) (s : StencilSettings) (p : ℕ) :
    (sketchStage r s).data p =
      sketchThreshold (applySobelEdgeDetection (toGrayscale r).data r.width r.height)
        r.width r.height s p := rfl

lemma sketchThreshold_apply (edge : ℕ → Pix) (w h : ℕ) (s : StencilSettings) (p : ℕ)
    (hp : p < w * h) :
    sketchThreshold edge w h s p =
      ⟨sketchValue (edge p).r s, sketchValue (edge p).r s, sketchValue (edge p).r s,
       (edge p).a⟩ := by
  dsimp only [sketchThreshold, sketchValue]
  rw [if_pos hp]

lemma applySobelEdgeDetection_interior (d : ℕ → Pix) (w h p : ℕ)
    (hint : 1 ≤ p / w ∧ p / w + 1 < h ∧ 1 ≤ p % w ∧ p % w + 1 < w) :
    applySobelEdgeDetection d w h p =
      ⟨sobelByte d w (p % w) (p / w), sobelByte d w (p % w) (p / w),
       sobelByte d w (p % w) (p / w), (d p).a⟩ := by
  dsimp only [applySobelEdgeDetection, sobelByte]
  rw [if_pos hint]

lemma applySobelEdgeDetection_border (d : ℕ → Pix) (w h p : ℕ)
    (hint : ¬(1 ≤ p / w ∧ p / w + 1 < h ∧ 1 ≤ p % w ∧ p % w + 1 < w)) :
    applySobelEdgeDetection d w h p = Pix.zero := by
  dsimp only [applySobelEdgeDetection]
  rw [if_neg hint]

/-- The alpha byte of a Sobel output pixel: the input buffer's alpha on the
interior, `0` on the border. -/
lemma applySobelEdgeDetection_a (d : ℕ → Pix) (w h p : ℕ) :
    (applySobelEdgeDetection d w h p).a = (d p).a ∨
    (applySobelEdgeDetection d w h p).a = 0 := by
  by_cases hint : 1 ≤ p / w ∧ p / w + 1 < h ∧ 1 ≤ p % w ∧ p % w + 1 < w
  · left
    rw [applySobelEdgeDetection_interior d w h p hint]
  · right
    rw [applySobelEdgeDetection_border d w h p hint]
    rfl

/-! ## Claim C1: the solid stencil transform -/

/-- **C1 (amended)** — Solid stencil transform: each pixel's R, G, B are set
to white (255) if the *unclamped* contrast-adjusted luminance is strictly
greater than `settings.threshold`, else black (0); `invert` swaps 0 and 255
after thresholding; and for any input and any threshold/contrast the
`createSolidStencil` output RGB channels contain only the values 0 and 255.
(The claim's clamping of the compared value before the threshold test is the
one part the code does not do; see the counterexample.) -/
theorem c1_solid_stencil (r : Raster) (s : StencilSettings) (p : ℕ)
    (hp : p < r.width * r.height) :
    (applyStencilEffect r s).data p =
      ⟨solidValue (r.data p) s, solidValue (r.data p) s, solidValue (r.data p) s,
       (r.data p).a⟩ ∧
    (((createSolidStencil r s).data p).r = 0 ∨ ((createSolidStencil r s).data p).r = 255) ∧
    (((createSolidStencil r s).data p).g = 0 ∨ ((createSolidStencil r s).data p).g = 255) ∧
    (((createSolidStencil r s).data p).b = 0 ∨ ((createSolidStencil r s).data p).b = 255) := by
  have hst := applyStencilEffect_data r s p hp
  have hsv : solidValue (r.data p) s = 0 ∨ solidValue (r.data p) s = 255 := by
    unfold solidValue
    by_cases h1 : contrastAdjust (luminance (r.data p)) s.contrast > s.threshold <;>
      by_cases h2 : s.invert <;> simp [h1, h2]
  have hmain : (createSolidStencil r s).data p =
      (⟨solidValue (r.data p) s, solidValue (r.data p) s, solidValue (r.data p) s,
        (r.data p).a⟩ : Pix) ∨
      (createSolidStencil r s).data p = ⟨0, 0, 0, ((applyStencilEffect r s).data p).a⟩ := by
    dsimp only [createSolidStencil]
    by_cases ht : s.lineThickness > 1
    · rw [if_pos ht]
      rcases applyLineThickness_cases s.lineThickness (applyStencilEffect r s) p with hc | hc
      · right
        rw [hc]
        rfl
      · left
        rw [hc, hst]
    · rw [if_neg ht]
      left
      exact hst
  refine ⟨hst, ?_⟩
  rcases hmain with hm | hm <;> rw [hm] <;> rcases hsv with h | h <;> simp [h]

/-- Counterexample to C1 as stated: with `threshold = 255`, `contrast = 3`
(both inside their documented ranges) and a pure-white input pixel, the
contrast-adjusted luminance is `510`; the code compares `510 > 255` and
writes white, while the claim's clamped value `clamp(510) = 255` is not
strictly greater than the threshold, so the claim demands black. -/
theorem c1_solid_stencil_counterexample :
    ((createSolidStencil fxWhite1 ⟨255, 3, 1, false, "solid-stencil"⟩).data 0).r = 255 ∧
    claimSolidValueClamped (fxWhite1.data 0) ⟨255, 3, 1, false, "solid-stencil"⟩ = 0 := by
  constructor
  · decide
  · decide

/-- Witness for C1 at a concrete input. -/
theorem c1_solid_stencil_witness :
    0 < fxWhite1.width * fxWhite1.height ∧
    (applyStencilEffect fxWhite1 ⟨255, 3, 1, false, "solid-stencil"⟩).data 0 =
      ⟨255, 255, 255, 255⟩ := by
  refine ⟨by decide, ?_⟩
  rw [(c1_solid_stencil fxWhite1 ⟨255, 3, 1, false, "solid-stencil"⟩ 0 (by decide)).1]
  decide

/-! ## Claim C7: the black & white transform -/

/-- **C7 (amended)** — Black & white transform: for every in-range pixel the
output R, G and B channels all equal the contrast-adjusted luminance
`C = clamp(((L/255 - 0.5) * contrast + 0.5) * 255, 0, 255)` with exact
BT.601 `L`, inverted to `255 - C` when `invert` is set, *as stored through
the 8-bit channel write* (rounded to the nearest integer, ties to even);
alpha is untouched.  No thresholding and no dilation occur: the output
pixel is completely described by this per-pixel formula.  (The claim's
exact equality with the real-valued `C` fails on non-integral `C`; see the
counterexample.) -/
theorem c7_black_white (r : Raster) (s : StencilSettings) (p : ℕ)
    (hp : p < r.width * r.height) :
    (createBlackWhiteDesign r s).data p =
      ⟨toUint8Clamp (claimBWValueExact (r.data p) s),
       toUint8Clamp (claimBWValueExact (r.data p) s),
       toUint8Clamp (claimBWValueExact (r.data p) s), (r.data p).a⟩ :=
  createBlackWhiteDesign_data r s p hp

/-- Counterexample to C7 as stated: for the pixel `(1, 0, 0)` with
`contrast = 1` the claim's value is `C = 0.299`, but the stored channel byte
is `0 ≠ 0.299`. -/
theorem c7_black_white_counterexample :
    ((createBlackWhiteDesign fxRed1 ⟨128, 1, 1, false, "black-white"⟩).data 0).r = 0 ∧
    claimBWValueExact (fxRed1.data 0) ⟨128, 1, 1, false, "black-white"⟩ = 299/1000 ∧
    (299/1000 : ℚ) ≠ 0 := by
  refine ⟨by decide, by decide, by decide⟩

/-- Witness for C7 at a concrete input. -/
theorem c7_black_white_witness :
    0 < fxRed1.width * fxRed1.height ∧
    (createBlackWhiteDesign fxRed1 ⟨128, 1, 1, false, "black-white"⟩).data 0 =
      ⟨0, 0, 0, 255⟩ := by
  refine ⟨by decide, ?_⟩
  rw [c7_black_white fxRed1 ⟨128, 1, 1, false, "black-white"⟩ 0 (by decide)]
  decide

/-! ## Claim C8: inversion of the black & white transform -/

lemma rhe_intCast (n : ℤ) : rhe (n : ℚ) = n := by
  unfold rhe
  rw [Int.fract_intCast, Int.floor_intCast]
  norm_num

lemma rhe_nonneg (x : ℚ) (hx : 0 ≤ x) : 0 ≤ rhe x := by
  have h0 : (0 : ℤ) ≤ ⌊x⌋ := Int.floor_nonneg.mpr hx
  unfold rhe
  split
  · omega
  · split
    · omega
    · split <;> omega

lemma rhe_le (x : ℚ) (hx : x < 255) : rhe x ≤ 255 := by
  have h1 : ⌊x⌋ < 255 := Int.floor_lt.mpr (by exact_mod_cast hx)
  unfold rhe
  split
  · omega
  · split
    · omega
    · split <;> omega

lemma toUint8Clamp_le (x : ℚ) : toUint8Clamp x ≤ 255 := by
  unfold toUint8Clamp
  by_cases h1 : x ≤ 0
  · rw [if_pos h1]
    omega
  · rw [if_neg h1]
    by_cases h2 : 255 ≤ x
    · rw [if_pos h2]
    · rw [if_neg h2]
      have := rhe_le x (by linarith)
      omega

lemma toUint8Clamp_eq_rhe (x : ℚ) (h0 : 0 ≤ x) (h255 : x ≤ 255) :
    (toUint8Clamp x : ℤ) = rhe x := by
  unfold toUint8Clamp
  by_cases h1 : x ≤ 0
  · have hx0 : x = 0 := le_antisymm h1 h0
    subst hx0
    rw [if_pos le_rfl, show ((0 : ℚ)) = ((0 : ℤ) : ℚ) by norm_num, rhe_intCast]
    rfl
  · rw [if_neg h1]
    by_cases h2 : 255 ≤ x
    · have hx : x = 255 := le_antisymm h255 h2
      subst hx
      rw [if_pos le_rfl, show ((255 : ℚ)) = ((255 : ℤ) : ℚ) by norm_num, rhe_intCast]
      rfl
    · rw [if_neg h2]
      have hge := rhe_nonneg x (by linarith)
      omega

/-- Away from exact half-integer ties, rounding commutes with the reflection
`x ↦ 255 - x`. -/
lemma rhe_reflect (x : ℚ) (h0 : 0 ≤ x) (h255 : x ≤ 255) (htie : Int.fract x ≠ 1/2) :
    rhe (255 - x) = 255 - rhe x := by
  by_cases hfr : Int.fract x = 0
  · have hx : x = (⌊x⌋ : ℚ) := by
      have h := Int.self_sub_fract x
      rw [hfr, sub_zero] at h
      exact h
    rw [hx, show (255 : ℚ) - (⌊x⌋ : ℚ) = ((255 - ⌊x⌋ : ℤ) : ℚ) by push_cast; ring,
      rhe_intCast, rhe_intCast]
  · have hf0 : 0 < Int.fract x := lt_of_le_of_ne (Int.fract_nonneg x) (Ne.symm hfr)
    have hf1 : Int.fract x < 1 := Int.fract_lt_one x
    have hfle : ⌊x⌋ ≤ x := Int.floor_le x
    have hflt : x < ⌊x⌋ + 1 := Int.lt_floor_add_one x
    have hfx : Int.fract x = x - ⌊x⌋ := rfl
    have hfloor : ⌊(255 : ℚ) - x⌋ = 254 - ⌊x⌋ := by
      rw [Int.floor_eq_iff]
      constructor
      · push_cast
        rw [hfx] at hf1
        linarith
      · push_cast
        rw [hfx] at hf0
        linarith
    have hfract255 : Int.fract ((255 : ℚ) - x) = 1 - Int.fract x := by
      rw [Int.fract, hfloor, hfx]
      push_cast
      ring
    unfold rhe
    rw [hfract255, hfloor]
    by_cases hlt : Int.fract x < 1/2
    · have hn1 : ¬(1 - Int.fract x < 1/2) := by linarith
      have hp2 : (1 : ℚ)/2 < 1 - Int.fract x := by linarith
      rw [if_pos hlt, if_neg hn1, if_pos hp2]
      ring
    · have hgt : 1/2 < Int.fract x := lt_of_le_of_ne (not_lt.mp hlt) (Ne.symm htie)
      have hp1 : 1 - Int.fract x < 1/2 := by linarith
      rw [if_pos hp1, if_neg hlt, if_pos hgt]
      ring

lemma toUint8Clamp_reflect (x : ℚ) (h0 : 0 ≤ x) (h255 : x ≤ 255)
    (htie : Int.fract x ≠ 1/2) :
    toUint8Clamp (255 - x) = 255 - toUint8Clamp x := by
  have e1 := toUint8Clamp_eq_rhe x h0 h255
  have e2 := toUint8Clamp_eq_rhe (255 - x) (by linarith) (by linarith)
  have e3 := rhe_reflect x h0 h255 htie
  have hle := toUint8Clamp_le x
  have hle2 := toUint8Clamp_le (255 - x)
  omega

/-- **C8 (amended)** — The inversion of the black & white transform is an
involution on the stored bytes (`255 - (255 - v) = v` for every output
value), and the invert-enabled output is the pointwise inversion of the
invert-disabled output at every pixel whose clamped contrast-adjusted
luminance `C` is not an exact half-integer (`fract C ≠ 1/2`).  At exact
ties the `Uint8ClampedArray` round-half-to-even store breaks the symmetry;
see the counterexample. -/
theorem c8_invert_involution (r : Raster) (th c : ℚ) (lt : ℕ) (m : String) (p : ℕ)
    (hp : p < r.width * r.height) :
    (Int.fract (max 0 (min 255 (contrastAdjust (luminance (r.data p)) c))) ≠ 1/2 →
      ((createBlackWhiteDesign r ⟨th, c, lt, true, m⟩).data p).r =
        255 - ((createBlackWhiteDesign r ⟨th, c, lt, false, m⟩).data p).r) ∧
    (255 - (255 - ((createBlackWhiteDesign r ⟨th, c, lt, true, m⟩).data p).r) =
      ((createBlackWhiteDesign r ⟨th, c, lt, true, m⟩).data p).r) := by
  have hd1 := createBlackWhiteDesign_data r ⟨th, c, lt, true, m⟩ p hp
  have hd2 := createBlackWhiteDesign_data r ⟨th, c, lt, false, m⟩ p hp
  have hbw1 : bwByte (r.data p) ⟨th, c, lt, true, m⟩ =
      toUint8Clamp (255 - max 0 (min 255 (contrastAdjust (luminance (r.data p)) c))) := rfl
  have hbw2 : bwByte (r.data p) ⟨th, c, lt, false, m⟩ =
      toUint8Clamp (max 0 (min 255 (contrastAdjust (luminance (r.data p)) c))) := rfl
  have h0 : (0 : ℚ) ≤ max 0 (min 255 (contrastAdjust (luminance (r.data p)) c)) :=
    le_max_left 0 _
  have h255 : max 0 (min 255 (contrastAdjust (luminance (r.data p)) c)) ≤ 255 :=
    max_le (by norm_num) (min_le_left _ _)
  constructor
  · intro htie
    rw [hd1, hd2]
    show bwByte (r.data p) ⟨th, c, lt, true, m⟩ =
      255 - bwByte (r.data p) ⟨th, c, lt, false, m⟩
    rw [hbw1, hbw2, toUint8Clamp_reflect _ h0 h255 htie]
  · rw [hd1]
    show 255 - (255 - bwByte (r.data p) ⟨th, c, lt, true, m⟩) =
      bwByte (r.data p) ⟨th, c, lt, true, m⟩
    have := toUint8Clamp_le (claimBWValueExact (r.data p) ⟨th, c, lt, true, m⟩)
    have hb : bwByte (r.data p) ⟨th, c, lt, true, m⟩ ≤ 255 := this
    omega

/-- Counterexample to C8's pointwise-inversion reading: for the pixel
`(0, 0, 250)` with `contrast = 1` the clamped contrast value is exactly
`28.5`; round-half-to-even stores `28` without `invert` and `226` with
`invert`, but the pointwise inversion of the non-inverted output is
`255 - 28 = 227 ≠ 226`. -/
theorem c8_invert_involution_counterexample :
    ((createBlackWhiteDesign fxTie1 ⟨128, 1, 1, true, "black-white"⟩).data 0).r = 226 ∧
    255 - ((createBlackWhiteDesign fxTie1 ⟨128, 1, 1, false, "black-white"⟩).data 0).r = 227 := by
  refine ⟨by decide, by decide⟩

/-- Witness for C8 at a concrete tie-free input. -/
theorem c8_invert_involution_witness :
    Int.fract (max 0 (min 255 (contrastAdjust (luminance (fxDark1.data 0)) 1))) ≠ 1/2 ∧
    ((createBlackWhiteDesign fxDark1 ⟨128, 1, 2, true, "black-white"⟩).data 0).r =
      255 - ((createBlackWhiteDesign fxDark1 ⟨128, 1, 2, false, "black-white"⟩).data 0).r :=
  ⟨by decide,
   (c8_invert_involution fxDark1 128 1 2 "black-white" 0 (by decide)).1 (by decide)⟩

/-! ## Claim C2: the line sketch transform -/

lemma idx_lt {w h b a : ℕ} (hb : b < h) (ha : a < w) : b * w + a < w * h := by
  calc b * w + a < b * w + w := by omega
  _ = (b + 1) * w := by ring
  _ ≤ h * w := Nat.mul_le_mul_right w (Nat.succ_le_of_lt hb)
  _ = w * h := Nat.mul_comm h w

/-- The Sobel x-kernel loop computes the spec's written-out `Gx` sum. -/
lemma sobelAt_gx (d : ℕ → Pix) (w x y : ℕ) (hx : 1 ≤ x) (hy : 1 ≤ y) :
    sobelAt d w x y sobelX = gxFormula (fun q => (d q).r) w x y := by
  obtain ⟨a, rfl⟩ : ∃ a, x = a + 1 := ⟨x - 1, by omega⟩
  obtain ⟨b, rfl⟩ : ∃ b, y = b + 1 := ⟨y - 1, by omega⟩
  unfold sobelAt gxFormula sobelX
  rw [show List.range 3 = [0, 1, 2] from by decide]
  simp only [List.foldl_cons, List.foldl_nil, List.getD, List.get?, Option.getD]
  simp only [Nat.add_sub_cancel]
  ring

/-- The Sobel y-kernel loop computes the spec's written-out `Gy` sum. -/
lemma sobelAt_gy (d : ℕ → Pix) (w x y : ℕ) (hx : 1 ≤ x) (hy : 1 ≤ y) :
    sobelAt d w x y sobelY = gyFormula (fun q => (d q).r) w x y := by
  obtain ⟨a, rfl⟩ : ∃ a, x = a + 1 := ⟨x - 1, by omega⟩
  obtain ⟨b, rfl⟩ : ∃ b, y = b + 1 := ⟨y - 1, by omega⟩
  unfold sobelAt gyFormula sobelY
  rw [show List.range 3 = [0, 1, 2] from by decide]
  simp only [List.foldl_cons, List.foldl_nil, List.getD, List.get?, Option.getD]
  simp only [Nat.add_sub_cancel]
  ring

/-- On the interior, the stored Sobel byte over the grayscale buffer is the
spec-side formula over the quantised grayscale map. -/
lemma sobelByte_eq_specEdgeByte (r : Raster) (x y : ℕ)
    (hy : 1 ≤ y) (hyh : y + 1 < r.height) (hx : 1 ≤ x) (hxw : x + 1 < r.width) :
    sobelByte (toGrayscale r).data r.width x y = specEdgeByte (grayMap r) r.width x y := by
  have hgray : ∀ b a, b < r.height → a < r.width →
      ((toGrayscale r).data (b * r.width + a)).r = grayMap r (b * r.width + a) := by
    intro b a hb ha
    rw [toGrayscale_data r _ (idx_lt hb ha)]
  have hgx : sobelAt (toGrayscale r).data r.width x y sobelX =
      gxFormula (grayMap r) r.width x y := by
    rw [sobelAt_gx _ _ _ _ hx hy]
    unfold gxFormula
    beta_reduce
    rw [hgray (y - 1) (x - 1) (by omega) (by omega),
        hgray (y - 1) (x + 1) (by omega) (by omega),
        hgray y (x - 1) (by omega) (by omega),
        hgray y (x + 1) (by omega) (by omega),
        hgray (y + 1) (x - 1) (by omega) (by omega),
        hgray (y + 1) (x + 1) (by omega) (by omega)]
  have hgy : sobelAt (toGrayscale r).data r.width x y sobelY =
      gyFormula (grayMap r) r.width x y := by
    rw [sobelAt_gy _ _ _ _ hx hy]
    unfold gyFormula
    beta_reduce
    rw [hgray (y - 1) (x - 1) (by omega) (by omega),
        hgray (y - 1) x (by omega) (by omega),
        hgray (y - 1) (x + 1) (by omega) (by omega),
        hgray (y + 1) (x - 1) (by omega) (by omega),
        hgray (y + 1) x (by omega) (by omega),
        hgray (y + 1) (x + 1) (by omega) (by omega)]
  unfold sobelByte specEdgeByte
  rw [hgx, hgy]

/-- **C2 (amended)** — Line sketch transform: the input is converted to
BT.601 grayscale bytes; for every interior pixel the Sobel sums `gx`, `gy`
with the spec's kernels are formed over those bytes, the gradient magnitude
`√(gx² + gy²)` is clamped to `[0, 255]` and *rounded to the stored byte*,
and the pixel is drawn black (0) when that byte strictly exceeds
`threshold`, else white (255), with `invert` swapping 0 and 255; border
pixels (and all pixels of images smaller than 3×3) take no part in the
convolution and are drawn white (black under `invert`), with alpha 0.
(The claim compares the exact real magnitude with the threshold; the code
compares the rounded stored byte — see the counterexample.)  With
`lineThickness ≤ 1`, `createLineSketch` is exactly this stage. -/
theorem c2_line_sketch (r : Raster) (s : StencilSettings) (hth : 0 ≤ s.threshold)
    (p : ℕ) (hp : p < r.width * r.height) :
    ((1 ≤ p / r.width ∧ p / r.width + 1 < r.height ∧
      1 ≤ p % r.width ∧ p % r.width + 1 < r.width) →
      (sketchStage r s).data p =
        ⟨sketchValue (specEdgeByte (grayMap r) r.width (p % r.width) (p / r.width)) s,
         sketchValue (specEdgeByte (grayMap r) r.width (p % r.width) (p / r.width)) s,
         sketchValue (specEdgeByte (grayMap r) r.width (p % r.width) (p / r.width)) s,
         (r.data p).a⟩) ∧
    (¬(1 ≤ p / r.width ∧ p / r.width + 1 < r.height ∧
      1 ≤ p % r.width ∧ p % r.width + 1 < r.width) →
      (sketchStage r s).data p =
        ⟨(if s.invert then 0 else 255), (if s.invert then 0 else 255),
         (if s.invert then 0 else 255), 0⟩) ∧
    (s.lineThickness ≤ 1 → createLineSketch r s = sketchStage r s) := by
  refine ⟨?_, ?_, ?_⟩
  · intro hint
    rw [sketchStage_data, sketchThreshold_apply _ _ _ _ _ hp,
      applySobelEdgeDetection_interior _ _ _ _ hint,
      sobelByte_eq_specEdgeByte r (p % r.width) (p / r.width)
        hint.1 hint.2.1 hint.2.2.1 hint.2.2.2,
      toGrayscale_data r p hp]
  · intro hnot
    rw [sketchStage_data, sketchThreshold_apply _ _ _ _ _ hp,
      applySobelEdgeDetection_border _ _ _ _ hnot]
    have h0 : sketchValue Pix.zero.r s = if s.invert then 0 else 255 := by
      unfold sketchValue
      have hlt : ¬((Pix.zero.r : ℚ) > s.threshold) := by
        show ¬((0 : ℚ) > s.threshold)
        exact not_lt.mpr hth
      rw [if_neg hlt]
    rw [h0]
    rfl
  · intro ht
    dsimp only [createLineSketch]
    rw [if_neg (by omega)]

/-- Counterexample to C2 as stated: at the centre of `fxImg3` the Sobel
gradient is `(1, 1)`, so the exact magnitude `√2 ≈ 1.414` strictly exceeds
the threshold `1` and the claim demands a black pixel; the code stores the
rounded byte `1`, compares `1 > 1`, and draws the pixel white. -/
theorem c2_line_sketch_counterexample :
    claimMagnitudeExceeds
      ((sobelAt (toGrayscale fxImg3).data 3 1 1 sobelX *
        sobelAt (toGrayscale fxImg3).data 3 1 1 sobelX +
        sobelAt (toGrayscale fxImg3).data 3 1 1 sobelY *
        sobelAt (toGrayscale fxImg3).data 3 1 1 sobelY).toNat) 1 ∧
    (createLineSketch fxImg3 ⟨1, 3/2, 1, false, "line-sketch"⟩).data 4 =
      ⟨255, 255, 255, 255⟩ := by
  constructor
  · unfold claimMagnitudeExceeds
    decide
  · decide

/-- Witness for C2 at a concrete input: the centre pixel of `fxImg3` (an
interior pixel) is drawn white at threshold 1, and a corner pixel is drawn
white with alpha 0. -/
theorem c2_line_sketch_witness :
    (0 : ℚ) ≤ (1 : ℚ) ∧ 4 < fxImg3.width * fxImg3.height ∧
    (sketchStage fxImg3 ⟨1, 3/2, 1, false, "line-sketch"⟩).data 4 =
      ⟨255, 255, 255, 255⟩ ∧
    (sketchStage fxImg3 ⟨1, 3/2, 1, false, "line-sketch"⟩).data 0 =
      ⟨255, 255, 255, 0⟩ := by
  refine ⟨by norm_num, by decide, ?_, ?_⟩
  · rw [(c2_line_sketch fxImg3 ⟨1, 3/2, 1, false, "line-sketch"⟩ (by norm_num) 4
      (by decide)).1 (by decide)]
    decide
  · rw [(c2_line_sketch fxImg3 ⟨1, 3/2, 1, false, "line-sketch"⟩ (by norm_num) 0
      (by decide)).2.1 (by decide)]
    decide

/-! ## Claim C4: alpha preservation -/

lemma applyStencilEffect_a (r : Raster) (s : StencilSettings) (p : ℕ) :
    ((applyStencilEffect r s).data p).a = (r.data p).a := by
  by_cases hp : p < r.width * r.height
  · rw [applyStencilEffect_data r s p hp]
  · dsimp only [applyStencilEffect]
    rw [if_neg hp]

lemma createBlackWhiteDesign_a (r : Raster) (s : StencilSettings) (p : ℕ) :
    ((createBlackWhiteDesign r s).data p).a = (r.data p).a := by
  by_cases hp : p < r.width * r.height
  · rw [createBlackWhiteDesign_data r s p hp]
  · dsimp only [createBlackWhiteDesign]
    rw [if_neg hp]

/-- **C4 (amended)** — Alpha preservation: the solid stencil and the black &
white transforms (including the dilation pass) preserve every pixel's alpha
byte; the line sketch preserves alpha only at interior pixels — every
border pixel of its output (in particular every pixel of an image smaller
than 3×3) has alpha byte `0`, because the freshly allocated Sobel result
buffer is zero-initialised and border pixels are never written.  (The
claim's "every transform preserves alpha byte-for-byte" fails for the line
sketch; see the counterexample.) -/
theorem c4_alpha_channel (r : Raster) (s : StencilSettings) :
    (∀ p, ((createSolidStencil r s).data p).a = (r.data p).a) ∧
    (∀ p, ((createBlackWhiteDesign r s).data p).a = (r.data p).a) ∧
    (∀ p, p < r.width * r.height →
      ((1 ≤ p / r.width ∧ p / r.width + 1 < r.height ∧
        1 ≤ p % r.width ∧ p % r.width + 1 < r.width) →
        ((createLineSketch r s).data p).a = (r.data p).a) ∧
      (¬(1 ≤ p / r.width ∧ p / r.width + 1 < r.height ∧
        1 ≤ p % r.width ∧ p % r.width + 1 < r.width) →
        ((createLineSketch r s).data p).a = 0)) := by
  refine ⟨?_, fun p => createBlackWhiteDesign_a r s p, ?_⟩
  · intro p
    dsimp only [createSolidStencil]
    by_cases ht : s.lineThickness > 1
    · rw [if_pos ht, applyLineThickness_a]
      exact applyStencilEffect_a r s p
    · rw [if_neg ht]
      exact applyStencilEffect_a r s p
  · intro p hp
    have hsk : ∀ hint : Prop, ((createLineSketch r s).data p).a =
        ((sketchStage r s).data p).a := by
      intro _
      dsimp only [createLineSketch]
      by_cases ht : s.lineThickness > 1
      · rw [if_pos ht, applyLineThickness_a]
      · rw [if_neg ht]
    constructor
    · intro hint
      rw [hsk True, sketchStage_data, sketchThreshold_apply _ _ _ _ _ hp,
        applySobelEdgeDetection_interior _ _ _ _ hint, toGrayscale_data r p hp]
    · intro hint
      rw [hsk True, sketchStage_data, sketchThreshold_apply _ _ _ _ _ hp,
        applySobelEdgeDetection_border _ _ _ _ hint]
      rfl

/-- Counterexample to C4 as stated: the line sketch of a fully opaque 1×1
image has alpha byte 0 at its only pixel. -/
theorem c4_alpha_channel_counterexample :
    (fxDark1.data 0).a = 255 ∧
    ((createLineSketch fxDark1 ⟨128, 3/2, 1, false, "line-sketch"⟩).data 0).a = 0 := by
  refine ⟨by decide, by decide⟩

/-- Witness for C4 at concrete inputs. -/
theorem c4_alpha_channel_witness :
    ((createSolidStencil fxDark1 ⟨128, 3/2, 2, false, "solid-stencil"⟩).data 0).a =
      (fxDark1.data 0).a ∧
    4 < fxImg3.width * fxImg3.height ∧
    ((createLineSketch fxImg3 ⟨128, 3/2, 1, false, "line-sketch"⟩).data 4).a =
      (fxImg3.data 4).a :=
  ⟨(c4_alpha_channel fxDark1 ⟨128, 3/2, 2, false, "solid-stencil"⟩).1 0, by decide,
   ((c4_alpha_channel fxImg3 ⟨128, 3/2, 1, false, "line-sketch"⟩).2.2 4 (by decide)).1
     (by decide)⟩

/-! ## Claim C9: all channel writes clamped to [0, 255] -/

lemma solidValue_cases (p : Pix) (s : StencilSettings) :
    solidValue p s = 0 ∨ solidValue p s = 255 := by
  unfold solidValue
  by_cases h1 : contrastAdjust (luminance p) s.contrast > s.threshold <;>
    by_cases h2 : s.invert <;> simp [h1, h2]

lemma sketchValue_cases (es : ℕ) (s : StencilSettings) :
    sketchValue es s = 0 ∨ sketchValue es s = 255 := by
  unfold sketchValue
  by_cases h1 : (es : ℚ) > s.threshold <;> by_cases h2 : s.invert <;> simp [h1, h2]

lemma applyLineThickness_valid (t : ℕ) (r : Raster) (hr : ValidRaster r) :
    ValidRaster (applyLineThickness t r) := by
  intro p hp
  rw [applyLineThickness_width, applyLineThickness_height] at hp
  have hv := hr p hp
  rcases applyLineThickness_cases t r p with hc | hc <;> rw [hc]
  · dsimp only [Pix.blacken]
    omega
  · exact hv

/-- **C9** — For every input raster with byte-valued channels, every settings
record (however degenerate the threshold and contrast), and every transform,
all channel bytes of the output raster lie in `[0, 255]`: each colour write
is either `0`, `255`, or a value stored through the clamping 8-bit store,
and alpha bytes come from the input. -/
theorem c9_channel_clamping (r : Raster) (s : StencilSettings) (hr : ValidRaster r) :
    ValidRaster (createSolidStencil r s) ∧ ValidRaster (createBlackWhiteDesign r s) ∧
    ValidRaster (createLineSketch r s) := by
  have hst : ValidRaster (applyStencilEffect r s) := by
    intro p hp
    rw [show (applyStencilEffect r s).width = r.width from rfl,
      show (applyStencilEffect r s).height = r.height from rfl] at hp
    rw [applyStencilEffect_data r s p hp]
    dsimp only
    have hv := hr p hp
    rcases solidValue_cases (r.data p) s with h | h <;> omega
  have hsk : ValidRaster (sketchStage r s) := by
    intro p hp
    rw [show (sketchStage r s).width = r.width from rfl,
      show (sketchStage r s).height = r.height from rfl] at hp
    rw [sketchStage_data, sketchThreshold_apply _ _ _ _ _ hp]
    have ha : (applySobelEdgeDetection (toGrayscale r).data r.width r.height p).a ≤ 255 := by
      rcases applySobelEdgeDetection_a (toGrayscale r).data r.width r.height p with h | h <;>
        rw [h]
      · rw [toGrayscale_data r p hp]
        exact (hr p hp).2.2.2
      · omega
    dsimp only
    rcases sketchValue_cases
        (applySobelEdgeDetection (toGrayscale r).data r.width r.height p).r s with h | h <;>
      omega
  refine ⟨?_, ?_, ?_⟩
  · dsimp only [createSolidStencil]
    by_cases ht : s.lineThickness > 1
    · rw [if_pos ht]
      exact applyLineThickness_valid _ _ hst
    · rw [if_neg ht]
      exact hst
  · intro p hp
    rw [show (createBlackWhiteDesign r s).width = r.width from rfl,
      show (createBlackWhiteDesign r s).height = r.height from rfl] at hp
    rw [createBlackWhiteDesign_data r s p hp]
    have := toUint8Clamp_le (claimBWValueExact (r.data p) s)
    exact ⟨this, this, this, (hr p hp).2.2.2⟩
  · dsimp only [createLineSketch]
    by_cases ht : s.lineThickness > 1
    · rw [if_pos ht]
      exact applyLineThickness_valid _ _ hsk
    · rw [if_neg ht]
      exact hsk

/-- Witness for C9 at a concrete input with an out-of-range contrast. -/
theorem c9_channel_clamping_witness :
    ValidRaster fxDark1 ∧
    ValidRaster (createBlackWhiteDesign fxDark1 ⟨128, 100, 2, false, "black-white"⟩) :=
  ⟨by unfold ValidRaster; decide,
   (c9_channel_clamping fxDark1 ⟨128, 100, 2, false, "black-white"⟩
     (by unfold ValidRaster; decide)).2.1⟩

/-! ## Claim C5: unrecognised mode -/

/-- **C5 (amended)** — If `settings.mode` is not one of the three recognised
values, `processImage` does *not* fail: the `if`/`else if` dispatch chain
falls through and the promise resolves successfully with an empty
`ProcessingResult` (no field filled, no error surfaced).  The only rejection
paths of the promise are image-decoding failures, which belong to the
out-of-scope decoding collaborator. -/
theorem c5_unsupported_mode (img : Raster) (s : StencilSettings)
    (h1 : s.mode ≠ "solid-stencil") (h2 : s.mode ≠ "black-white")
    (h3 : s.mode ≠ "line-sketch") :
    processImage img s = ⟨none, none, none⟩ := by
  dsimp only [processImage]
  rw [if_neg h1, if_neg h2, if_neg h3]

/-- Counterexample to C5 as stated: mode `"sepia"` is unrecognised, yet
processing completes without error and returns the empty result. -/
theorem c5_unsupported_mode_counterexample :
    ("sepia" : String) ≠ "solid-stencil" ∧ ("sepia" : String) ≠ "black-white" ∧
    ("sepia" : String) ≠ "line-sketch" ∧
    processImage fxDark1 ⟨128, 3/2, 2, false, "sepia"⟩ = ⟨none, none, none⟩ := by
  refine ⟨by decide, by decide, by decide, rfl⟩

/-- Witness for C5 at a concrete input. -/
theorem c5_unsupported_mode_witness :
    processImage fxDark1 ⟨128, 3/2, 2, false, "grayscale"⟩ = ⟨none, none, none⟩ :=
  c5_unsupported_mode fxDark1 ⟨128, 3/2, 2, false, "grayscale"⟩
    (by decide) (by decide) (by decide)

/-! ## Claim C6: the mode dispatcher -/

/-- **C6** — The dispatcher populates `ProcessingResult` exactly according to
mode: `solid-stencil` fills only `solidStencil`; `black-white` fills both
`blackWhite` and `lineSketch` and leaves `solidStencil` absent;
`line-sketch` fills only `lineSketch`. -/
theorem c6_mode_dispatcher (img : Raster) (s : StencilSettings) :
    (s.mode = "solid-stencil" →
      (processImage img s).solidStencil.isSome = true ∧
      (processImage img s).blackWhite = none ∧
      (processImage img s).lineSketch = none) ∧
    (s.mode = "black-white" →
      (processImage img s).solidStencil = none ∧
      (processImage img s).blackWhite.isSome = true ∧
      (processImage img s).lineSketch.isSome = true) ∧
    (s.mode = "line-sketch" →
      (processImage img s).solidStencil = none ∧
      (processImage img s).blackWhite = none ∧
      (processImage img s).lineSketch.isSome = true) := by
  refine ⟨?_, ?_, ?_⟩
  · intro hm
    dsimp only [processImage]
    rw [if_pos hm]
    exact ⟨rfl, rfl, rfl⟩
  · intro hm
    dsimp only [processImage]
    rw [if_neg (by rw [hm]; decide), if_pos hm]
    exact ⟨rfl, rfl, rfl⟩
  · intro hm
    dsimp only [processImage]
    rw [if_neg (by rw [hm]; decide), if_neg (by rw [hm]; decide), if_pos hm]
    exact ⟨rfl, rfl, rfl⟩

/-- Witness for C6 at concrete inputs of all three recognised modes. -/
theorem c6_mode_dispatcher_witness :
    (processImage fxDark1 ⟨128, 3/2, 2, false, "solid-stencil"⟩).solidStencil.isSome = true ∧
    (processImage fxDark1 ⟨128, 3/2, 2, false, "solid-stencil"⟩).lineSketch = none ∧
    (processImage fxDark1 ⟨128, 3/2, 2, false, "black-white"⟩).solidStencil = none ∧
    (processImage fxDark1 ⟨128, 3/2, 2, false, "black-white"⟩).lineSketch.isSome = true ∧
    (processImage fxDark1 ⟨128, 3/2, 2, false, "line-sketch"⟩).blackWhite = none ∧
    (processImage fxDark1 ⟨128, 3/2, 2, false, "line-sketch"⟩).lineSketch.isSome = true :=
  ⟨((c6_mode_dispatcher fxDark1 ⟨128, 3/2, 2, false, "solid-stencil"⟩).1 rfl).1,
   ((c6_mode_dispatcher fxDark1 ⟨128, 3/2, 2, false, "solid-stencil"⟩).1 rfl).2.2,
   ((c6_mode_dispatcher fxDark1 ⟨128, 3/2, 2, false, "black-white"⟩).2.1 rfl).1,
   ((c6_mode_dispatcher fxDark1 ⟨128, 3/2, 2, false, "black-white"⟩).2.1 rfl).2.2,
   ((c6_mode_dispatcher fxDark1 ⟨128, 3/2, 2, false, "line-sketch"⟩).2.2 rfl).2.1,
   ((c6_mode_dispatcher fxDark1 ⟨128, 3/2, 2, false, "line-sketch"⟩).2.2 rfl).2.2⟩

/-! ## Claim C10: the line sketch agrees across modes on opaque inputs -/

/-- A fully opaque source pixel replaces the destination pixel, whatever the
destination holds. -/
lemma sourceOver_opaque (s d1 d2 : Pix) (ha : s.a = 255) :
    sourceOver s d1 = sourceOver s d2 := by
  unfold sourceOver
  rw [ha]
  norm_num

/-- Drawing a fully opaque image over a canvas yields the same pixels
regardless of the canvas contents. -/
lemma drawImage_eq_of_opaque (src dst1 dst2 : Raster)
    (hw : dst2.width = dst1.width) (hh : dst2.height = dst1.height)
    (ha : ∀ p, p < dst1.width * dst1.height → (src.data p).a = 255) :
    drawImage src dst1 = drawImage src dst2 := by
  unfold drawImage
  rw [hw, hh]
  congr 1
  funext p
  by_cases hp : p < dst1.width * dst1.height
  · rw [if_pos hp, if_pos hp, sourceOver_opaque _ _ _ (ha p hp)]
  · rw [if_neg hp, if_neg hp]

/-- **C10** — For every fully opaque input raster and any
threshold/contrast/thickness/invert, the `lineSketch` output of black-white
mode is identical to the `lineSketch` output of line-sketch mode: although
black-white mode runs the line sketch after the black & white transform on
the same shared canvas, `createLineSketch` first redraws the original image
over the canvas, and an opaque draw replaces every canvas pixel. -/
theorem c10_line_sketch_mode_agreement (img : Raster) (th c : ℚ) (lt : ℕ) (inv : Bool)
    (ha : ∀ p, p < img.width * img.height → (img.data p).a = 255) :
    (processImage img ⟨th, c, lt, inv, "black-white"⟩).lineSketch =
      (processImage img ⟨th, c, lt, inv, "line-sketch"⟩).lineSketch := by
  dsimp only [processImage]
  rw [if_neg (by decide), if_pos rfl, if_neg (by decide), if_neg (by decide), if_pos rfl]
  have hdraw : drawImage img
      (createBlackWhiteDesign (drawImage img (blankRaster img.width img.height))
        ⟨th, c, lt, inv, "black-white"⟩) =
      drawImage img (blankRaster img.width img.height) :=
    drawImage_eq_of_opaque img _ _ rfl rfl ha
  show some (createLineSketch _ _) = some (createLineSketch _ _)
  rw [hdraw]
  rfl

/-- Witness for C10 at a concrete opaque input. -/
theorem c10_line_sketch_mode_agreement_witness :
    (∀ p, p < fxDark1.width * fxDark1.height → (fxDark1.data p).a = 255) ∧
    (processImage fxDark1 ⟨128, 3/2, 2, false, "black-white"⟩).lineSketch =
      (processImage fxDark1 ⟨128, 3/2, 2, false, "line-sketch"⟩).lineSketch :=
  ⟨by decide, c10_line_sketch_mode_agreement fxDark1 128 (3/2) 2 false (by decide)⟩
